import Mathlib

/-!
Verification of the request-dispatch core of the `smithy-rs` server runtime
(`rust-runtime/aws-smithy-http-server/src/routing/request_spec.rs`,
`rust-runtime/aws-smithy-server/src/routing/mod.rs`,
`rust-runtime/aws-smithy-http-server/src/handler/mod.rs`,
`rust-runtime/aws-smithy-http-server/src/routing/operation_handler.rs`).

The Rust code is shallowly embedded: each Rust type becomes a Lean structure or
inductive, each function a computable Lean definition mirroring the source
control flow.  A Rust panic (`todo!()`, `.unwrap()` failure) is modelled by
`Option`/`none` or by a dedicated panic constructor.
-/

namespace Smithy

/-- Curly braces, written via code points so they never appear raw in string
literals of this development. -/
def lbrace : Char := Char.ofNat 123

def rbrace : Char := Char.ofNat 125

/-- HTTP methods (the subset exercised by the routing code; `http::Method`). -/
inductive Method where
  | get | post | put | delete | head | options | patch
  deriving DecidableEq, Repr

/-- `PathSegment` from `request_spec.rs`: `Literal(String) | Label | Greedy`. -/
inductive PathSegment where
  | literal : String → PathSegment
  | label : PathSegment
  | greedy : PathSegment
  deriving DecidableEq, Repr

/-- `QuerySegment` from `request_spec.rs`: `Key(String) | KeyValue(String, String)`. -/
inductive QuerySegment where
  | key : String → QuerySegment
  | keyValue : String → String → QuerySegment
  deriving DecidableEq, Repr

/-- `HostPrefixSegment` from `request_spec.rs`: `Literal(String) | Label`. -/
inductive HostPrefixSegment where
  | literal : String → HostPrefixSegment
  | label : HostPrefixSegment
  deriving DecidableEq, Repr

/-- `PathSpec(pub Vec<PathSegment>)`. -/
def PathSpec := List PathSegment

/-- `pub type QuerySpec = Vec<QuerySegment>;`. -/
def QuerySpec := List QuerySegment

/-- `PathAndQuerySpec { path_segments, query_segments }`. -/
structure PathAndQuerySpec where
  pathSegments : List PathSegment
  querySegments : List QuerySegment
  deriving DecidableEq, Repr

/-- `UriSpec { host_prefix: Option<Vec<HostPrefixSegment>>, path_and_query }`.
The field holding `host_prefix` is called `hostPrefixOpt` here. -/
structure UriSpec where
  hostPrefixOpt : Option (List HostPrefixSegment)
  pathAndQuery : PathAndQuerySpec
  deriving DecidableEq, Repr

/-- `Match` from `request_spec.rs`: the tri-state verdict. -/
inductive MatchVerdict where
  | yes
  | methodNotAllowed
  | no
  deriving DecidableEq, Repr

/-- The relevant parts of an `http::Request`: method, URI path and URI query
string (`req.method()`, `req.uri().path()`, `req.uri().query()`). -/
structure RequestM where
  method : Method
  path : String
  query : Option String
  deriving DecidableEq, Repr

/-! ## The compiled path matcher

`impl From<&PathSpec> for Regex` builds the string
`("/+" ++ atom(segment))* ++ "$"` where `atom(Literal l) = l`,
`atom(Label) = "[^/]+"`, `atom(Greedy) = ".*"`, and compiles it with
`Regex::new`.  We embed the *compiled* matcher as a list of atoms together
with an executable matching function giving the `regex` crate semantics on
this fragment: `is_match` searches for a match starting at any position, and
the trailing `$` forces the match to end at the end of the haystack.

Two modelling notes, checked against the `regex` crate:
the crate's `.` does not match a newline, but `http::Uri` guarantees a
request path never contains a newline, so over request paths `.*` accepts
any remaining characters and is modelled as such; and a `Literal` segment's
text is spliced into the pattern unescaped, so the verbatim-text semantics
of `ReAtom.lit` is faithful exactly for literals free of regex
metacharacters (all literals appearing in the theorems below are). -/

/-- One atom of the compiled pattern. -/
inductive ReAtom where
  | lit : List Char → ReAtom
  | seps : ReAtom
  | label : ReAtom
  | greedy : ReAtom
  deriving DecidableEq, Repr

/-- The atom a `PathSegment` compiles to in `From<&PathSpec> for Regex`. -/
def atomOf : PathSegment → ReAtom
  | .literal l => .lit l.data
  | .label => .label
  | .greedy => .greedy

/-- The compiled atom sequence of a `PathSpec`: the source folds
`acc + "/+" + atom(segment)` over the segments. -/
def regexFromPathSpec : List PathSegment → List ReAtom
  | [] => []
  | s :: rest => .seps :: atomOf s :: regexFromPathSpec rest

/-- Does the atom sequence match exactly the character list `cs` (the trailing
`$` of the compiled pattern requires the match to end at the end of the
haystack, hence `[]` matches only the empty remainder)? -/
def chainMatchB : List ReAtom → List Char → Bool
  | [], cs => cs.isEmpty
  | .lit w :: rest, cs => w.isPrefixOf cs && chainMatchB rest (cs.drop w.length)
  | .seps :: rest, cs =>
      (List.range cs.length).any fun j =>
        (cs.take (j + 1)).all (fun c => c == '/') && chainMatchB rest (cs.drop (j + 1))
  | .label :: rest, cs =>
      (List.range cs.length).any fun j =>
        (cs.take (j + 1)).all (fun c => c != '/') && chainMatchB rest (cs.drop (j + 1))
  | .greedy :: rest, cs =>
      (List.range (cs.length + 1)).any fun j => chainMatchB rest (cs.drop j)

/-- `Regex::is_match` on the compiled pattern: some starting position yields a
match that runs to the end of the haystack.  There is no `^` in the pattern
built by the source (only a trailing `$`), so every starting position is
tried. -/
def isMatchB (atoms : List ReAtom) (cs : List Char) : Bool :=
  (List.range (cs.length + 1)).any fun i => chainMatchB atoms (cs.drop i)

/-- `self.uri_path_regex.is_match(req.uri().path())` for a compiled `PathSpec`. -/
def pathSpecIsMatch (segs : List PathSegment) (path : String) : Bool :=
  isMatchB (regexFromPathSpec segs) path.data

/-! ## Query strings

`matches` runs `serde_urlencoded::from_str::<HashMap<&str, &str>>(query)`.
Deserializing into borrowed `&str` fails exactly when percent-decoding would
change a component, i.e. when the query contains `+` or a valid `%XX` escape;
otherwise the string splits on `&` (empty pieces skipped) into `key=value`
pairs (`key` alone gets the empty value), later duplicates of a key
overwriting earlier ones in the map. -/

/-- Is `c` an ASCII hex digit? -/
def isHexDigit (c : Char) : Bool :=
  (('0' ≤ c) && (c ≤ '9')) || (('a' ≤ c) && (c ≤ 'f')) || (('A' ≤ c) && (c ≤ 'F'))

/-- Does percent-decoding change the string: a `+`, or a `%` followed by two
hex digits, occurs somewhere? -/
def decodeChanges : List Char → Bool
  | [] => false
  | '+' :: _ => true
  | '%' :: a :: b :: rest =>
      (isHexDigit a && isHexDigit b) || decodeChanges (a :: b :: rest)
  | _ :: rest => decodeChanges rest

/-- Split a character list on a separator character. -/
def splitOnChar (sep : Char) (cs : List Char) : List (List Char) :=
  match cs with
  | [] => [[]]
  | c :: rest =>
      let r := splitOnChar sep rest
      if c = sep then [] :: r
      else match r with
        | [] => [[c]]
        | piece :: more => (c :: piece) :: more

/-- Split one `key=value` piece at its first `=` (a piece without `=` is a key
with empty value). -/
def splitPair (cs : List Char) : String × String :=
  match cs.findIdx? (· = '=') with
  | none => (⟨cs⟩, "")
  | some i => (⟨cs.take i⟩, ⟨cs.drop (i + 1)⟩)

/-- `serde_urlencoded::from_str::<HashMap<&str, &str>>`: `none` is the `Err`
case.  The resulting association list represents the `HashMap`; a key's value
is its last binding. -/
def urlencodedParse (q : String) : Option (List (String × String)) :=
  if decodeChanges q.data then none
  else some (((splitOnChar '&' q.data).filter (· ≠ [])).map splitPair)

/-- `HashMap::contains_key` on the association-list representation. -/
def qmapContains (m : List (String × String)) (k : String) : Bool :=
  m.any (fun p => p.1 == k)

/-- `HashMap::get` on the association-list representation (last binding wins,
matching `HashMap` insertion overwriting). -/
def qmapGet (m : List (String × String)) (k : String) : Option String :=
  match m.reverse.find? (fun p => p.1 == k) with
  | none => none
  | some p => some p.2

/-- The `for query_segment in ...` loop body of `matches`: do all declared
query constraints hold of the parsed query map?  (`return Match::No` on the
first failure is the same verdict as this conjunction.) -/
def querySegmentsOk (qsegs : List QuerySegment) (m : List (String × String)) : Bool :=
  qsegs.all fun seg =>
    match seg with
    | .key k => qmapContains m k
    | .keyValue k v =>
        match qmapGet m k with
        | none => false
        | some found => found == v

/-! ## RequestSpec and its matching algorithm -/

/-- `RequestSpec { method, uri_spec, uri_path_regex }`.  The compiled
`uri_path_regex` is a function of `uri_spec.path_and_query.path_segments`
(computed once in `RequestSpec::new`), so it is not stored separately; the
matcher is recovered by `regexFromPathSpec`, which is exactly what `new`
compiles. -/
structure RequestSpec where
  method : Method
  uriSpec : UriSpec
  deriving DecidableEq, Repr

/-- `RequestSpec::matches`.  Returns `none` when the Rust code panics: the
`todo!("Look at host prefix")` reached whenever a host prefix is declared.
Otherwise mirrors the source: path regex first (`No` on failure); with no
declared query constraints the verdict is decided by the method; with query
constraints, a missing (`None`) or unparsable query string gives `No`, a
failed constraint gives `No`, and otherwise the method decides. -/
def RequestSpec.matches (spec : RequestSpec) (req : RequestM) : Option MatchVerdict :=
  match spec.uriSpec.hostPrefixOpt with
  | some _ => none
  | none =>
    if ¬ pathSpecIsMatch spec.uriSpec.pathAndQuery.pathSegments req.path then
      some .no
    else if spec.uriSpec.pathAndQuery.querySegments.isEmpty then
      if spec.method = req.method then some .yes else some .methodNotAllowed
    else
      match req.query with
      | some q =>
        match urlencodedParse q with
        | none => some .no
        | some queryMap =>
          if querySegmentsOk spec.uriSpec.pathAndQuery.querySegments queryMap then
            if spec.method = req.method then some .yes else some .methodNotAllowed
          else
            some .no
      | none => some .no

/-! ## Pattern parsing (`PathAndQuerySpec::parse`) -/

/-- `PathAndQuerySpecParseError` from `request_spec.rs`. -/
inductive PathAndQuerySpecParseError where
  | doesNotStartWithForwardSlash
  | endsWithQuestionMark
  | containsEmptyPathSegment
  | containsFragment
  | containsDotSegment
  | unopenedLabel (segment : String)
  | unclosedLabel (segment : String)
  | invalidQuerySpec
  deriving DecidableEq, Repr

/-- Classification of one path segment inside `parse`: the Rust `match` on
`(first_char, penultimate_char_opt, last_char)`, in source order — greedy,
label, unclosed label, unopened label, literal. -/
def classifyPathSegment (seg : String) : Except PathAndQuerySpecParseError PathSegment :=
  match seg.data with
  | [] => .error .containsEmptyPathSegment
  | first :: rest =>
    match (first :: rest).reverse with
    | [] => .error .containsEmptyPathSegment
    | lastC :: revRest =>
      if first = lbrace then
        if lastC = rbrace then
          if revRest.head? = some '+' then .ok .greedy else .ok .label
        else .error (.unclosedLabel seg)
      else if lastC = rbrace then .error (.unopenedLabel seg)
      else .ok (.literal seg)

/-- `HashMap::into_iter` after inserting the parsed pairs in order: each key
appears once, bound to its last value.  (The real iteration order is
unspecified; first-occurrence order is the fixed representative used here —
no theorem below depends on the order of more than one key.) -/
def dedupKeepLast (ps : List (String × String)) : List (String × String) :=
  ((ps.map Prod.fst).dedup).map fun k => (k, (qmapGet ps k).getD "")

/-- `PathAndQuerySpec::parse`, mirroring the source check order: leading `/`,
trailing `?`, `#` anywhere, `.` anywhere, then per-segment classification of
`path.split('/').skip(1)`, then the query-string part (between the first and
second `?`), parsed urlencoded, empty value giving `Key` and non-empty
`KeyValue`. -/
def PathAndQuerySpec.parse (s : String) :
    Except PathAndQuerySpecParseError PathAndQuerySpec :=
  match s.data with
  | [] => .error .doesNotStartWithForwardSlash
  | first :: _ =>
    if first ≠ '/' then .error .doesNotStartWithForwardSlash
    else if s.data.getLast? = some '?' then .error .endsWithQuestionMark
    else if s.data.contains '#' then .error .containsFragment
    else if s.data.contains '.' then .error .containsDotSegment
    else
      let pieces := splitOnChar '?' s.data
      let path : List Char := pieces.headD []
      let queryOpt : Option (List Char) := pieces[1]?
      let pathSpecE : Except PathAndQuerySpecParseError (List PathSegment) :=
        if path = ['/'] then .ok []
        else ((splitOnChar '/' path).drop 1).mapM
          (fun piece => classifyPathSegment ⟨piece⟩)
      match pathSpecE with
      | .error e => .error e
      | .ok pathSpec =>
        match queryOpt with
        | none => .ok ⟨pathSpec, []⟩
        | some qchars =>
          match urlencodedParse ⟨qchars⟩ with
          | none => .error .invalidQuerySpec
          | some pairs =>
            .ok ⟨pathSpec, (dedupKeepLast pairs).map fun p =>
              if p.2 = "" then .key p.1 else .keyValue p.1 p.2⟩

/-! ## `Regex::new` and `RequestSpec::new`

`From<&PathSpec> for Regex` ends in `Regex::new(...).unwrap()`: if the
assembled pattern is rejected by the regex engine the conversion — and hence
`RequestSpec::new` — panics.  `reScanStep` models the `regex` crate's parser
on the patterns this code can assemble: groups must balance, a character
class must be non-empty and closed, a repetition operator (`*`, `+`, `?`,
counted) needs a preceding repeatable atom, an escape needs a following
character.  Counted repetitions are approximated permissively (digits and
commas until the closing brace); no theorem below exercises them. -/

structure ReScanSt where
  depth : Nat
  hasAtom : Bool
  /-- 0 = normal, 1 = just after a class opening bracket, 2 = after its
  negation caret, 3 = class body, 4 = counted repetition. -/
  mode : Nat
  esc : Bool
  deriving DecidableEq, Repr

def reScanStep (stOpt : Option ReScanSt) (c : Char) : Option ReScanSt :=
  match stOpt with
  | none => none
  | some st =>
    if st.esc then
      if st.mode = 0 then some { st with esc := false, hasAtom := true }
      else some { st with esc := false, mode := 3 }
    else if st.mode = 1 then
      if c = '^' then some { st with mode := 2 }
      else if c = ']' then none
      else if c = '\\' then some { st with esc := true }
      else some { st with mode := 3 }
    else if st.mode = 2 then
      if c = ']' then none
      else if c = '\\' then some { st with esc := true }
      else some { st with mode := 3 }
    else if st.mode = 3 then
      if c = ']' then some { st with mode := 0, hasAtom := true }
      else if c = '\\' then some { st with esc := true }
      else some st
    else if st.mode = 4 then
      if c = rbrace then some { st with mode := 0, hasAtom := false }
      else if c.isDigit || c = ',' then some st
      else none
    else
      if c = '(' then some { st with depth := st.depth + 1, hasAtom := false }
      else if c = ')' then
        match st.depth with
        | 0 => none
        | d + 1 => some { st with depth := d, hasAtom := true }
      else if c = '[' then some { st with mode := 1 }
      else if c = '*' ∨ c = '+' ∨ c = '?' then
        if st.hasAtom then some { st with hasAtom := false } else none
      else if c = lbrace then
        if st.hasAtom then some { st with mode := 4 } else none
      else if c = '|' then some { st with hasAtom := false }
      else if c = '\\' then some { st with esc := true }
      else if c = '$' ∨ c = '^' then some { st with hasAtom := false }
      else some { st with hasAtom := true }

/-- Does `Regex::new` accept the pattern? -/
def rustRegexCompiles (pattern : List Char) : Bool :=
  match pattern.foldl reScanStep (some ⟨0, false, 0, false⟩) with
  | none => false
  | some st => st.depth == 0 && st.mode == 0 && !st.esc

/-- The pattern text each segment contributes (spliced verbatim for
literals). -/
def atomStr : PathSegment → List Char
  | .literal l => l.data
  | .label => "[^/]+".data
  | .greedy => ".*".data

/-- The pattern body assembled by the fold `acc + "/+" + atom` in
`From<&PathSpec> for Regex`. -/
def regexBodyChars : List PathSegment → List Char
  | [] => []
  | s :: rest => '/' :: '+' :: (atomStr s ++ regexBodyChars rest)

/-- The full pattern handed to `Regex::new`: `format!("{}$", re)`. -/
def pathSpecRegexChars (segs : List PathSegment) : List Char :=
  regexBodyChars segs ++ ['$']

/-- `RequestSpec::new`: compiles the path regex once; `none` models the
`.unwrap()` panic when the regex engine rejects the assembled pattern. -/
def RequestSpec.new (method : Method) (uriSpec : UriSpec) : Option RequestSpec :=
  if rustRegexCompiles (pathSpecRegexChars uriSpec.pathAndQuery.pathSegments) then
    some ⟨method, uriSpec⟩
  else
    none

/-! ## The Router (`aws-smithy-server/src/routing/mod.rs`)

`Router` stores `routes: HashMap<RouteId, Route<B>>` and `Service::call`
iterates `self.routes.iter()` — a `HashMap` iteration whose order is
unspecified and need not be registration order.  The loop body returns the
dispatched route's future on `Match::Yes` and hits `todo!()` on `Match::No`
and on `Match::MethodNotAllowed`; the code after the loop (the intended
`404 Not Found` per the `TODO` comment) is also `todo!()`.  Every arm either
returns or panics, so only the first route of the iteration order is ever
examined. -/

inductive RouterCallResult where
  /-- `Match::Yes`: dispatch to the route's service (`RouterFuture::from_oneshot`). -/
  | dispatched (routeId : Nat)
  /-- the `todo!()` in the `Match::No` arm -/
  | panickedNoArm
  /-- the `todo!()` in the `Match::MethodNotAllowed` arm -/
  | panickedMethodNotAllowedArm
  /-- the `todo!()` after the loop (missing `404 Not Found` handling) -/
  | panickedFallthrough
  /-- `RequestSpec::matches` itself panicked (declared host prefix) -/
  | panickedInMatches
  deriving DecidableEq, Repr

/-- `Router::call` over the route table in a given `HashMap` iteration order
(route ids are paired with their `RequestSpec`s; the handler a dispatched
route would run is identified by the route id). -/
def routerCall (routesIter : List (Nat × RequestSpec)) (req : RequestM) :
    RouterCallResult :=
  match routesIter with
  | [] => .panickedFallthrough
  | (routeId, spec) :: _ =>
    match spec.matches req with
    | some .yes => .dispatched routeId
    | some .no => .panickedNoArm
    | some .methodNotAllowed => .panickedMethodNotAllowedArm
    | none => .panickedInMatches

/-! ## The operation handler adapter

`handler/mod.rs` (`impl_handler!(T1)`): `call` extracts the typed input with
`T1::from_request`, short-circuiting to `rejection.into_response()` on
failure, otherwise invokes the user function and converts its result with
`into_response` (a user function returning `Result<output, error>` is covered
by the output type and its conversion).  `operation_handler.rs` wraps this in
a `tower::Service` whose `Error` is `Infallible` (modelled by `Empty`) and
whose `call` always resolves to `Ok(response)`. -/

structure ResponseM where
  status : Nat
  body : String
  deriving DecidableEq, Repr

/-- `Handler::call` from `impl_handler!`. -/
def handlerCall {Input Rejection Output : Type}
    (fromRequest : RequestM → Except Rejection Input)
    (opFunction : Input → Output)
    (outputIntoResponse : Output → ResponseM)
    (rejectionIntoResponse : Rejection → ResponseM)
    (req : RequestM) : ResponseM :=
  match fromRequest req with
  | .error rejection => rejectionIntoResponse rejection
  | .ok input => outputIntoResponse (opFunction input)

/-- `Service::call` for `OperationHandler`: always `Ok` (error type
`Infallible`). -/
def operationHandlerCall {Input Rejection Output : Type}
    (fromRequest : RequestM → Except Rejection Input)
    (opFunction : Input → Output)
    (outputIntoResponse : Output → ResponseM)
    (rejectionIntoResponse : Rejection → ResponseM)
    (req : RequestM) : Except Empty ResponseM :=
  .ok (handlerCall fromRequest opFunction outputIntoResponse rejectionIntoResponse req)

/-! ## Reference definitions taken from the specification's words

These are *not* translated from the source; they state what the spec says,
for comparison with the source-derived definitions above. -/

/-- Spec §4.2: an anchored *whole-path* matcher — the pattern must cover the
request path from its beginning (position 0) to its end. -/
def anchoredWholePathMatch (segs : List PathSegment) (path : String) : Bool :=
  chainMatchB (regexFromPathSpec segs) path.data

/-- Spec §4.3 steps 2–5: the verdict determined solely by the path, query and
method steps (no host-prefix step). -/
def pathQueryMethodVerdict (method : Method) (pq : PathAndQuerySpec)
    (req : RequestM) : MatchVerdict :=
  if ¬ pathSpecIsMatch pq.pathSegments req.path then .no
  else if pq.querySegments.isEmpty then
    if method = req.method then .yes else .methodNotAllowed
  else
    match req.query with
    | none => .no
    | some q =>
      match urlencodedParse q with
      | none => .no
      | some m =>
        if querySegmentsOk pq.querySegments m then
          if method = req.method then .yes else .methodNotAllowed
        else .no

/-- "Path and all declared query constraints match": declared query
constraints hold of the request's query string (vacuously when none are
declared). -/
def queryConstraintsHold (qsegs : List QuerySegment) (queryOpt : Option String) :
    Bool :=
  if qsegs.isEmpty then true
  else
    match queryOpt with
    | none => false
    | some q =>
      match urlencodedParse q with
      | none => false
      | some m => querySegmentsOk qsegs m

/-- Spec §4.2, denotation of one segment: a literal matches exactly its text,
a label one or more non-slash characters, a greedy segment any characters. -/
def segDenote : PathSegment → List Char → Prop
  | .literal l, cs => cs = l.data
  | .label, cs => cs ≠ [] ∧ ∀ c ∈ cs, c ≠ '/'
  | .greedy, _ => True

/-- Spec §4.2, denotation of a segment sequence: each segment is preceded by
one or more slashes (the duplicate-slash-tolerant separator) and the
segments' matches jointly cover the string. -/
def segsDenote : List PathSegment → List Char → Prop
  | [], cs => cs = []
  | seg :: rest, cs =>
      ∃ a b tail, cs = a ++ (b ++ tail) ∧ a ≠ [] ∧ (∀ c ∈ a, c = '/') ∧
        segDenote seg b ∧ segsDenote rest tail

/-! ## Concrete fixtures used by the theorems below -/

/-- `RequestSpec` for pattern `/resource?key=value`, method GET (the
`query_segments` are exactly what `parse` produces for that pattern). -/
def specResource : RequestSpec :=
  ⟨.get, ⟨none, ⟨[.literal "resource"], [.keyValue "key" "value"]⟩⟩⟩

/-- `RequestSpec` for pattern `/` + label + `/path/` + greedy + `/suffix`,
method GET. -/
def specLabelGreedy : RequestSpec :=
  ⟨.get, ⟨none, ⟨[.label, .literal "path", .greedy, .literal "suffix"], []⟩⟩⟩

/-- `RequestSpec` for `GET /a`. -/
def specGetA : RequestSpec := ⟨.get, ⟨none, ⟨[.literal "a"], []⟩⟩⟩

/-- `RequestSpec` for `POST /a`. -/
def specPostA : RequestSpec := ⟨.post, ⟨none, ⟨[.literal "a"], []⟩⟩⟩

/-- `RequestSpec` for `GET /b`. -/
def specGetB : RequestSpec := ⟨.get, ⟨none, ⟨[.literal "b"], []⟩⟩⟩

/-- `RequestSpec` for `GET /fixed`. -/
def specGetFixed : RequestSpec := ⟨.get, ⟨none, ⟨[.literal "fixed"], []⟩⟩⟩

/-- `RequestSpec` for `GET /` + label (one label segment). -/
def specGetLabel : RequestSpec := ⟨.get, ⟨none, ⟨[.label], []⟩⟩⟩

/-- A literal-only `Char` predicate: alphanumeric, `-` or `_` — characters
the regex engine treats as ordinary literals. -/
def plainLiteralChar (c : Char) : Bool :=
  c.isAlphanum || c == '-' || c == '_'

/-- Are all of a segment's literal characters regex-ordinary? -/
def segPlain : PathSegment → Bool
  | .literal l => l.data.all plainLiteralChar
  | .label => true
  | .greedy => true

/-- Extraction fixture for the adapter witness: GET requests extract input
`1`, others are rejected. -/
def extractFixture (req : RequestM) : Except Unit Nat :=
  if req.method = .get then .ok 1 else .error ()

/-- Operation-function fixture for the adapter witness. -/
def opFixture (n : Nat) : Nat := n + 1

/-- Output conversion fixture for the adapter witness. -/
def outRespFixture (n : Nat) : ResponseM := ⟨200, toString n⟩

/-- Rejection conversion fixture for the adapter witness. -/
def rejRespFixture (_ : Unit) : ResponseM := ⟨400, "bad request"⟩

/-! ## Lemmas about the compiled matcher -/

theorem chainMatchB_nil (cs : List Char) :
    chainMatchB [] cs = true ↔ cs = [] := by
  simp [chainMatchB, List.isEmpty_iff]

theorem chainMatchB_seps (R : List ReAtom) (cs : List Char) :
    chainMatchB (.seps :: R) cs = true ↔
      ∃ a b, cs = a ++ b ∧ a ≠ [] ∧ (∀ c ∈ a, c = '/') ∧
        chainMatchB R b = true := by
  constructor
  · intro h
    simp only [chainMatchB, List.any_eq_true, List.mem_range, Bool.and_eq_true] at h
    obtain ⟨j, hj, hall, hrest⟩ := h
    refine ⟨cs.take (j + 1), cs.drop (j + 1), (List.take_append_drop _ _).symm,
      ?_, ?_, hrest⟩
    · have hlen : (cs.take (j + 1)).length = j + 1 := by
        rw [List.length_take]; omega
      intro hnil
      rw [hnil] at hlen
      simp at hlen
    · intro c hc
      have := List.all_eq_true.mp hall c hc
      exact eq_of_beq this
  · rintro ⟨a, b, rfl, hne, hslash, hrest⟩
    simp only [chainMatchB, List.any_eq_true, List.mem_range, Bool.and_eq_true]
    have hpos : 0 < a.length := List.length_pos.mpr hne
    refine ⟨a.length - 1, by rw [List.length_append]; omega, ?_, ?_⟩
    · rw [show a.length - 1 + 1 = a.length by omega, List.take_left]
      exact List.all_eq_true.mpr fun c hc => beq_iff_eq.mpr (hslash c hc)
    · rw [show a.length - 1 + 1 = a.length by omega, List.drop_left]
      exact hrest

theorem chainMatchB_label (R : List ReAtom) (cs : List Char) :
    chainMatchB (.label :: R) cs = true ↔
      ∃ a b, cs = a ++ b ∧ a ≠ [] ∧ (∀ c ∈ a, c ≠ '/') ∧
        chainMatchB R b = true := by
  constructor
  · intro h
    simp only [chainMatchB, List.any_eq_true, List.mem_range, Bool.and_eq_true] at h
    obtain ⟨j, hj, hall, hrest⟩ := h
    refine ⟨cs.take (j + 1), cs.drop (j + 1), (List.take_append_drop _ _).symm,
      ?_, ?_, hrest⟩
    · have hlen : (cs.take (j + 1)).length = j + 1 := by
        rw [List.length_take]; omega
      intro hnil
      rw [hnil] at hlen
      simp at hlen
    · intro c hc
      have := List.all_eq_true.mp hall c hc
      exact bne_iff_ne.mp this
  · rintro ⟨a, b, rfl, hne, hnoslash, hrest⟩
    simp only [chainMatchB, List.any_eq_true, List.mem_range, Bool.and_eq_true]
    have hpos : 0 < a.length := List.length_pos.mpr hne
    refine ⟨a.length - 1, by rw [List.length_append]; omega, ?_, ?_⟩
    · rw [show a.length - 1 + 1 = a.length by omega, List.take_left]
      exact List.all_eq_true.mpr fun c hc => bne_iff_ne.mpr (hnoslash c hc)
    · rw [show a.length - 1 + 1 = a.length by omega, List.drop_left]
      exact hrest

theorem chainMatchB_greedy (R : List ReAtom) (cs : List Char) :
    chainMatchB (.greedy :: R) cs = true ↔
      ∃ a b, cs = a ++ b ∧ chainMatchB R b = true := by
  constructor
  · intro h
    simp only [chainMatchB, List.any_eq_true, List.mem_range] at h
    obtain ⟨j, _, hrest⟩ := h
    exact ⟨cs.take j, cs.drop j, (List.take_append_drop _ _).symm, hrest⟩
  · rintro ⟨a, b, rfl, hrest⟩
    simp only [chainMatchB, List.any_eq_true, List.mem_range]
    refine ⟨a.length, by rw [List.length_append]; omega, ?_⟩
    rw [List.drop_left]
    exact hrest

theorem chainMatchB_lit (w : List Char) (R : List ReAtom) (cs : List Char) :
    chainMatchB (.lit w :: R) cs = true ↔
      ∃ b, cs = w ++ b ∧ chainMatchB R b = true := by
  constructor
  · intro h
    simp only [chainMatchB, Bool.and_eq_true] at h
    obtain ⟨hpre, hrest⟩ := h
    obtain ⟨t, ht⟩ := List.isPrefixOf_iff_prefix.mp hpre
    refine ⟨t, ht.symm, ?_⟩
    rw [← ht, List.drop_left] at hrest
    exact hrest
  · rintro ⟨b, rfl, hrest⟩
    simp only [chainMatchB, Bool.and_eq_true]
    refine ⟨List.isPrefixOf_iff_prefix.mpr ⟨b, rfl⟩, ?_⟩
    rw [List.drop_left]
    exact hrest

/-- The compiled atom sequence of a `PathSpec` matches exactly the strings the
specification's segment denotation describes. -/
theorem chainMatchB_denote (segs : List PathSegment) (cs : List Char) :
    chainMatchB (regexFromPathSpec segs) cs = true ↔ segsDenote segs cs := by
  induction segs generalizing cs with
  | nil => simpa [regexFromPathSpec, segsDenote] using chainMatchB_nil cs
  | cons seg rest ih =>
    rw [regexFromPathSpec, chainMatchB_seps]
    constructor
    · rintro ⟨a, b, rfl, hne, hsl, hrest⟩
      cases seg with
      | literal l =>
        rw [show atomOf (.literal l) = .lit l.data from rfl, chainMatchB_lit] at hrest
        obtain ⟨tail, rfl, htail⟩ := hrest
        exact ⟨a, l.data, tail, rfl, hne, hsl, rfl, (ih tail).mp htail⟩
      | label =>
        rw [show atomOf .label = .label from rfl, chainMatchB_label] at hrest
        obtain ⟨x, tail, rfl, hxne, hxns, htail⟩ := hrest
        exact ⟨a, x, tail, rfl, hne, hsl, ⟨hxne, hxns⟩, (ih tail).mp htail⟩
      | greedy =>
        rw [show atomOf .greedy = .greedy from rfl, chainMatchB_greedy] at hrest
        obtain ⟨x, tail, rfl, htail⟩ := hrest
        exact ⟨a, x, tail, rfl, hne, hsl, trivial, (ih tail).mp htail⟩
    · rintro ⟨a, b, tail, rfl, hne, hsl, hdeno, htail⟩
      refine ⟨a, b ++ tail, rfl, hne, hsl, ?_⟩
      cases seg with
      | literal l =>
        rw [show atomOf (.literal l) = .lit l.data from rfl, chainMatchB_lit]
        obtain rfl : b = l.data := hdeno
        exact ⟨tail, rfl, (ih tail).mpr htail⟩
      | label =>
        rw [show atomOf .label = .label from rfl, chainMatchB_label]
        exact ⟨b, tail, rfl, hdeno.1, hdeno.2, (ih tail).mpr htail⟩
      | greedy =>
        rw [show atomOf .greedy = .greedy from rfl, chainMatchB_greedy]
        exact ⟨b, tail, rfl, (ih tail).mpr htail⟩

/-- `is_match` tries every starting position; the trailing `$` makes the
match run to the end of the haystack. -/
theorem isMatchB_iff (atoms : List ReAtom) (cs : List Char) :
    isMatchB atoms cs = true ↔
      ∃ i, i ≤ cs.length ∧ chainMatchB atoms (cs.drop i) = true := by
  simp [isMatchB, List.any_eq_true, List.mem_range, Nat.lt_succ_iff]

theorem pathSpecIsMatch_iff (segs : List PathSegment) (path : String) :
    pathSpecIsMatch segs path = true ↔
      ∃ i, i ≤ path.data.length ∧ segsDenote segs (path.data.drop i) := by
  rw [pathSpecIsMatch, isMatchB_iff]
  exact exists_congr fun i =>
    and_congr_right fun _ => chainMatchB_denote segs (path.data.drop i)

/-- The empty `PathSpec` compiles to the bare `$` pattern, which matches
every path. -/
theorem pathSpecIsMatch_nil (path : String) :
    pathSpecIsMatch [] path = true := by
  rw [pathSpecIsMatch_iff]
  exact ⟨path.data.length, le_rfl, by simp [segsDenote]⟩

/-! ## Lemmas about `RequestSpec.matches` -/

/-- On a spec without a host prefix, `matches` returns (normally) the verdict
of the path, query and method steps, in the compact form used by the claim
theorems. -/
theorem matches_characterization (m : Method) (pq : PathAndQuerySpec)
    (req : RequestM) :
    RequestSpec.matches ⟨m, ⟨none, pq⟩⟩ req =
      some (if pathSpecIsMatch pq.pathSegments req.path then
              if queryConstraintsHold pq.querySegments req.query then
                if m = req.method then .yes else .methodNotAllowed
              else .no
            else .no) := by
  cases hpath : pathSpecIsMatch pq.pathSegments req.path with
  | false => simp [RequestSpec.matches, hpath]
  | true =>
    cases hq : pq.querySegments with
    | nil => simp [RequestSpec.matches, queryConstraintsHold, hpath, hq, apply_ite some]
    | cons s ss =>
      cases hquery : req.query with
      | none => simp [RequestSpec.matches, queryConstraintsHold, hpath, hq, hquery]
      | some q =>
        cases hparse : urlencodedParse q with
        | none =>
          simp [RequestSpec.matches, queryConstraintsHold, hpath, hq, hquery, hparse]
        | some mp =>
          cases hok : querySegmentsOk (s :: ss) mp with
          | false =>
            simp [RequestSpec.matches, queryConstraintsHold, hpath, hq, hquery,
              hparse, hok]
          | true =>
            simp [RequestSpec.matches, queryConstraintsHold, hpath, hq, hquery,
              hparse, hok, apply_ite some]

/-- The spec-side step verdict agrees with the same compact form. -/
theorem pathQueryMethodVerdict_characterization (m : Method)
    (pq : PathAndQuerySpec) (req : RequestM) :
    pathQueryMethodVerdict m pq req =
      (if pathSpecIsMatch pq.pathSegments req.path then
         if queryConstraintsHold pq.querySegments req.query then
           if m = req.method then .yes else .methodNotAllowed
         else .no
       else .no) := by
  cases hpath : pathSpecIsMatch pq.pathSegments req.path with
  | false => simp [pathQueryMethodVerdict, hpath]
  | true =>
    cases hq : pq.querySegments with
    | nil => simp [pathQueryMethodVerdict, queryConstraintsHold, hpath, hq]
    | cons s ss =>
      cases hquery : req.query with
      | none => simp [pathQueryMethodVerdict, queryConstraintsHold, hpath, hq, hquery]
      | some q =>
        cases hparse : urlencodedParse q with
        | none =>
          simp [pathQueryMethodVerdict, queryConstraintsHold, hpath, hq, hquery, hparse]
        | some mp =>
          cases hok : querySegmentsOk (s :: ss) mp with
          | false =>
            simp [pathQueryMethodVerdict, queryConstraintsHold, hpath, hq, hquery,
              hparse, hok]
          | true =>
            simp [pathQueryMethodVerdict, queryConstraintsHold, hpath, hq, hquery,
              hparse, hok]

/-- A key is contained in the query map iff `get` finds a value for it. -/
theorem qmapContains_iff_get (m : List (String × String)) (k : String) :
    qmapContains m k = true ↔ ∃ v, qmapGet m k = some v := by
  unfold qmapContains qmapGet
  cases hf : m.reverse.find? (fun p => p.1 == k) with
  | none =>
    simp only [hf]
    constructor
    · intro h
      obtain ⟨p, hp, hpk⟩ := List.any_eq_true.mp h
      have := List.find?_eq_none.mp hf p (List.mem_reverse.mpr hp)
      simp [hpk] at this
    · rintro ⟨v, hv⟩
      cases hv
  | some p =>
    simp only [hf]
    constructor
    · intro _
      exact ⟨p.2, rfl⟩
    · intro _
      have hpk : (p.1 == k) = true := by
        have h2 := List.find?_some hf
        simpa using h2
      exact List.any_eq_true.mpr
        ⟨p, List.mem_reverse.mp (List.mem_of_find?_eq_some hf), hpk⟩

/-! ## Lemmas about the regex-compilation scan -/

theorem plainChar_ne (c d : Char) (hc : plainLiteralChar c = true)
    (hd : plainLiteralChar d = false) : ¬ c = d := by
  intro h
  subst h
  rw [hd] at hc
  cases hc

/-- A regex-ordinary character steps the scanner from a clean normal state to
a clean normal state, recording a repeatable atom. -/
theorem reScanStep_plain (c : Char) (h : plainLiteralChar c = true) (b : Bool) :
    reScanStep (some ⟨0, b, 0, false⟩) c = some ⟨0, true, 0, false⟩ := by
  have h1 := plainChar_ne c '(' h (by decide)
  have h2 := plainChar_ne c ')' h (by decide)
  have h3 := plainChar_ne c '[' h (by decide)
  have h4 := plainChar_ne c '*' h (by decide)
  have h5 := plainChar_ne c '+' h (by decide)
  have h6 := plainChar_ne c '?' h (by decide)
  have h7 := plainChar_ne c lbrace h (by decide)
  have h8 := plainChar_ne c '|' h (by decide)
  have h9 := plainChar_ne c '\\' h (by decide)
  have h10 := plainChar_ne c '$' h (by decide)
  have h11 := plainChar_ne c '^' h (by decide)
  simp [reScanStep, h1, h2, h3, h4, h5, h6, h7, h8, h9, h10, h11]

theorem scanSepChunk (b : Bool) :
    List.foldl reScanStep (some ⟨0, b, 0, false⟩) ['/', '+'] =
      some ⟨0, false, 0, false⟩ := by
  cases b <;> rfl

theorem scanLabelChunk :
    List.foldl reScanStep (some ⟨0, false, 0, false⟩) (atomStr .label) =
      some ⟨0, false, 0, false⟩ := rfl

theorem scanGreedyChunk :
    List.foldl reScanStep (some ⟨0, false, 0, false⟩) (atomStr .greedy) =
      some ⟨0, false, 0, false⟩ := rfl

theorem scanPlainLiteral (cs : List Char) (h : cs.all plainLiteralChar = true)
    (b : Bool) :
    ∃ b2, List.foldl reScanStep (some ⟨0, b, 0, false⟩) cs =
      some ⟨0, b2, 0, false⟩ := by
  induction cs generalizing b with
  | nil => exact ⟨b, rfl⟩
  | cons c rest ih =>
    rw [List.all_cons, Bool.and_eq_true] at h
    rw [List.foldl_cons, reScanStep_plain c h.1 b]
    exact ih h.2 true

theorem scanBody (segs : List PathSegment) (h : segs.all segPlain = true)
    (b : Bool) :
    ∃ b2, List.foldl reScanStep (some ⟨0, b, 0, false⟩) (regexBodyChars segs) =
      some ⟨0, b2, 0, false⟩ := by
  induction segs generalizing b with
  | nil => exact ⟨b, rfl⟩
  | cons s rest ih =>
    rw [List.all_cons, Bool.and_eq_true] at h
    rw [regexBodyChars,
      show ('/' :: '+' :: (atomStr s ++ regexBodyChars rest)) =
        ['/', '+'] ++ (atomStr s ++ regexBodyChars rest) from rfl,
      List.foldl_append, scanSepChunk, List.foldl_append]
    cases s with
    | literal l =>
      obtain ⟨b1, hb1⟩ :=
        scanPlainLiteral l.data (by simpa [segPlain] using h.1) false
      rw [show atomStr (.literal l) = l.data from rfl, hb1]
      exact ih h.2 b1
    | label =>
      rw [scanLabelChunk]
      exact ih h.2 false
    | greedy =>
      rw [scanGreedyChunk]
      exact ih h.2 false

/-- The pattern assembled from a `PathSpec` whose literals are regex-ordinary
is accepted by the regex engine. -/
theorem rustRegexCompiles_plain (segs : List PathSegment)
    (h : segs.all segPlain = true) :
    rustRegexCompiles (pathSpecRegexChars segs) = true := by
  obtain ⟨b2, hb⟩ := scanBody segs h false
  rw [rustRegexCompiles, pathSpecRegexChars, List.foldl_append, hb,
    show List.foldl reScanStep (some ⟨0, b2, 0, false⟩) ['$'] =
      some ⟨0, false, 0, false⟩ from by cases b2 <;> rfl]
  rfl

/-! ## Claim theorems -/

/-- C1: the claim says `Router::call` evaluates the registered routes in
registration order and dispatches to the first route whose verdict is `Yes`,
skipping non-matching routes.  The code stores routes in a `HashMap`
(arbitrary iteration order) and panics (`todo!()`) on the first non-`Yes`
verdict: with `GET /a` registered as route 0 and `GET /b` as route 1, a
`GET /b` request panics under registration-order iteration instead of
dispatching to route 1 (second conjunct: the dispatch the claim promises
happens only if the iteration happens to start at route 1); and with
`GET /fixed` registered before `GET /` + label, the label route receives a
`/fixed` request under a label-first `HashMap` iteration order. -/
theorem c1_router_order_and_skip_broken :
    routerCall [(0, specGetA), (1, specGetB)] ⟨.get, "/b", none⟩ =
      .panickedNoArm ∧
    routerCall [(1, specGetB), (0, specGetA)] ⟨.get, "/b", none⟩ =
      .dispatched 1 ∧
    routerCall [(1, specGetLabel), (0, specGetFixed)] ⟨.get, "/fixed", none⟩ =
      .dispatched 1 := by
  decide

/-- C2: the claim says the Router returns a 405-equivalent response when some
route's verdict is `MethodNotAllowed` and a 404-equivalent response when no
route matches at all.  The code panics instead: with `GET /a` and `POST /a`
registered, a `DELETE /a` request hits the `todo!()` in the
`Match::MethodNotAllowed` arm under either `HashMap` iteration order, and a
request to an empty router hits the `todo!()` after the loop where the
`404 Not Found` response is still a `TODO`. -/
theorem c2_router_termination_broken :
    routerCall [(0, specGetA), (1, specPostA)] ⟨.delete, "/a", none⟩ =
      .panickedMethodNotAllowedArm ∧
    routerCall [(1, specPostA), (0, specGetA)] ⟨.delete, "/a", none⟩ =
      .panickedMethodNotAllowedArm ∧
    routerCall [] ⟨.get, "/a", none⟩ = .panickedFallthrough := by
  decide

/-- C3 counterexample: the claim quantifies over every `RequestSpec`, but a
spec declaring a host prefix makes `matches` panic (`todo!`) instead of
returning `No` on a non-matching path. -/
theorem c3_host_prefix_panic_counterexample :
    RequestSpec.matches ⟨.get, ⟨some [.literal "api"], ⟨[.literal "a"], []⟩⟩⟩
      ⟨.get, "/zzz", none⟩ = none := by
  decide

/-- C3 (amended: restricted to specs that declare no host prefix): `matches`
returns `No` whenever the compiled path matcher rejects the request path,
regardless of method and query; it returns `MethodNotAllowed` exactly when
the path matches, the declared query constraints hold and the request method
differs from the declared one; and the four `GET /resource?key=value`
examples evaluate as the claim states. -/
theorem c3_verdict_discrimination :
    (∀ (m : Method) (pq : PathAndQuerySpec) (req : RequestM),
        pathSpecIsMatch pq.pathSegments req.path = false →
        RequestSpec.matches ⟨m, ⟨none, pq⟩⟩ req = some .no) ∧
    (∀ (m : Method) (pq : PathAndQuerySpec) (req : RequestM),
        RequestSpec.matches ⟨m, ⟨none, pq⟩⟩ req = some .methodNotAllowed ↔
          pathSpecIsMatch pq.pathSegments req.path = true ∧
          queryConstraintsHold pq.querySegments req.query = true ∧
          ¬ m = req.method) ∧
    RequestSpec.matches specResource ⟨.get, "/resource", some "key=value"⟩ =
      some .yes ∧
    RequestSpec.matches specResource ⟨.get, "/resource", some "key=other"⟩ =
      some .no ∧
    RequestSpec.matches specResource ⟨.get, "/resource", none⟩ = some .no ∧
    RequestSpec.matches specResource ⟨.post, "/resource", some "key=value"⟩ =
      some .methodNotAllowed := by
  refine ⟨?_, ?_, by decide, by decide, by decide, by decide⟩
  · intro m pq req h
    rw [matches_characterization, h]
    rfl
  · intro m pq req
    rw [matches_characterization]
    cases hp : pathSpecIsMatch pq.pathSegments req.path with
    | false => simp [hp]
    | true =>
      cases hqc : queryConstraintsHold pq.querySegments req.query with
      | false => simp [hp, hqc]
      | true =>
        by_cases hm : m = req.method
        · simp [hp, hqc, hm]
        · simp [hp, hqc, hm]

/-- C3 witness: the amended theorem applied at `GET /a` versus request
`GET /zzz`. -/
theorem c3_verdict_discrimination_witness :
    RequestSpec.matches ⟨.get, ⟨none, ⟨[.literal "a"], []⟩⟩⟩
      ⟨.get, "/zzz", none⟩ = some .no :=
  c3_verdict_discrimination.1 .get ⟨[.literal "a"], []⟩ ⟨.get, "/zzz", none⟩
    (by decide)

/-- C4 counterexample: the claim quantifies over every `RequestSpec` with a
query constraint, but declaring a host prefix makes `matches` panic (`todo!`)
instead of returning `No` for a missing query string. -/
theorem c4_host_prefix_panic_counterexample :
    RequestSpec.matches ⟨.get, ⟨some [], ⟨[], [.key "k"]⟩⟩⟩
      ⟨.get, "/", none⟩ = none := by
  decide

/-- C4 (amended: restricted to specs that declare no host prefix): with at
least one declared query constraint and a matching path, a missing query
string gives `No`, an unparsable query string gives `No`, and with a parsed
query map the verdict is `No` unless every declared constraint holds (then
the method decides); `Key k` requires `k` to be present with any value,
`KeyValue k v` requires `k` bound to exactly `v`, and the declared segments
combine as a conjunction. -/
theorem c4_query_evaluation :
    (∀ (m : Method) (psegs : List PathSegment) (qsegs : List QuerySegment)
        (req : RequestM), qsegs ≠ [] →
        pathSpecIsMatch psegs req.path = true →
        (req.query = none →
          RequestSpec.matches ⟨m, ⟨none, ⟨psegs, qsegs⟩⟩⟩ req = some .no) ∧
        (∀ q, req.query = some q → urlencodedParse q = none →
          RequestSpec.matches ⟨m, ⟨none, ⟨psegs, qsegs⟩⟩⟩ req = some .no) ∧
        (∀ q mp, req.query = some q → urlencodedParse q = some mp →
          RequestSpec.matches ⟨m, ⟨none, ⟨psegs, qsegs⟩⟩⟩ req =
            (if querySegmentsOk qsegs mp then
               some (if m = req.method then .yes else .methodNotAllowed)
             else some .no))) ∧
    (∀ (mp : List (String × String)) (k : String),
        querySegmentsOk [.key k] mp = true ↔ ∃ v, qmapGet mp k = some v) ∧
    (∀ (mp : List (String × String)) (k v : String),
        querySegmentsOk [.keyValue k v] mp = true ↔ qmapGet mp k = some v) ∧
    (∀ (qsegs : List QuerySegment) (mp : List (String × String)),
        querySegmentsOk qsegs mp = true ↔
          ∀ seg ∈ qsegs, querySegmentsOk [seg] mp = true) := by
  refine ⟨?_, ?_, ?_, ?_⟩
  · intro m psegs qsegs req hne hpath
    cases qsegs with
    | nil => exact absurd rfl hne
    | cons s ss =>
      refine ⟨?_, ?_, ?_⟩
      · intro hq
        rw [matches_characterization]
        simp [queryConstraintsHold, hpath, hq]
      · intro q hq hparse
        rw [matches_characterization]
        simp [queryConstraintsHold, hpath, hq, hparse]
      · intro q mp hq hparse
        rw [matches_characterization]
        cases hok : querySegmentsOk (s :: ss) mp with
        | false => simp [queryConstraintsHold, hpath, hq, hparse, hok]
        | true =>
          simp [queryConstraintsHold, hpath, hq, hparse, hok, apply_ite some]
  · intro mp k
    simp only [querySegmentsOk, List.all_cons, List.all_nil, Bool.and_true]
    exact qmapContains_iff_get mp k
  · intro mp k v
    simp only [querySegmentsOk, List.all_cons, List.all_nil, Bool.and_true]
    cases hg : qmapGet mp k with
    | none => simp [hg]
    | some found => simp [hg, beq_iff_eq]
  · intro qsegs mp
    simp only [querySegmentsOk, List.all_eq_true, List.all_cons, List.all_nil,
      Bool.and_true]

/-- C4 witness: the amended theorem applied at a spec with query constraint
`Key k` against a request with no query string. -/
theorem c4_query_evaluation_witness :
    RequestSpec.matches ⟨.get, ⟨none, ⟨[], [.key "k"]⟩⟩⟩ ⟨.get, "/q", none⟩ =
      some .no :=
  (c4_query_evaluation.1 .get [] [.key "k"] ⟨.get, "/q", none⟩ (by decide)
    (by decide)).1 rfl

/-- C5 counterexample: the pattern is not anchored at the start of the path
(the source compiles `format!("\x7b\x7d$", re)`, a `$` with no `^`), so the
compiled matcher for the literal spec `/b` accepts the path `/a/b`, which the
claim's anchored whole-path semantics rejects. -/
theorem c5_suffix_match_counterexample :
    pathSpecIsMatch [.literal "b"] "/a/b" = true ∧
    anchoredWholePathMatch [.literal "b"] "/a/b" = false := by
  decide

/-- C5 (amended: the pattern is anchored only at the end of the path, and the
per-segment characterization holds for `PathSpec`s whose literals consist of
regex-ordinary characters — literal text is spliced into the pattern
unescaped, so only there does the engine read it verbatim, and only there
does the matcher exist at all, construction panicking otherwise): the
compiled matcher accepts a path exactly when some suffix of it satisfies the
segment denotation — each literal matching exactly its text, each label one
or more non-slash characters, a greedy segment any remaining characters
(slashes included), segments preceded by one or more slashes — and the
spec's example `/` label `/path/` greedy `/suffix` matches
`/a/path/b/c/suffix` with verdict `Yes`. -/
theorem c5_matcher_semantics :
    (∀ (segs : List PathSegment) (path : String),
        segs.all segPlain = true →
        (pathSpecIsMatch segs path = true ↔
          ∃ i, i ≤ path.data.length ∧ segsDenote segs (path.data.drop i))) ∧
    RequestSpec.matches specLabelGreedy ⟨.get, "/a/path/b/c/suffix", none⟩ =
      some .yes :=
  ⟨fun segs path _ => pathSpecIsMatch_iff segs path, by decide⟩

/-- C5 witness: the amended characterization applied to the literal spec
`/fixed` and the path `/x/fixed` (a suffix match). -/
theorem c5_matcher_semantics_witness :
    [PathSegment.literal "fixed"].all segPlain = true ∧
    (pathSpecIsMatch [PathSegment.literal "fixed"] "/x/fixed" = true ↔
      ∃ i, i ≤ "/x/fixed".data.length ∧
        segsDenote [PathSegment.literal "fixed"] ("/x/fixed".data.drop i)) :=
  ⟨by decide, c5_matcher_semantics.1 [PathSegment.literal "fixed"] "/x/fixed"
    (by decide)⟩

/-- C6 counterexample: `From<&PathSpec> for Regex` ends in `.unwrap()`, so a
literal segment the regex engine rejects — here the single character `(`,
yielding the pattern `/+($` with an unclosed group — makes `RequestSpec::new`
panic rather than return an error. -/
theorem c6_regex_unwrap_counterexample :
    RequestSpec.new .get ⟨none, ⟨[.literal "("], []⟩⟩ = none := by
  decide

/-- C6 (amended: construction panics when the regex engine rejects the
assembled pattern, e.g. on a literal containing an unescaped metacharacter;
for specs whose literals are regex-ordinary characters it returns normally,
and the compilation happens once at construction, never during request
handling). -/
theorem c6_construction_no_panic (m : Method) (u : UriSpec)
    (h : u.pathAndQuery.pathSegments.all segPlain = true) :
    RequestSpec.new m u = some ⟨m, u⟩ := by
  rw [RequestSpec.new]
  simp [rustRegexCompiles_plain _ h]

/-- C6 witness: constructing the spec for `GET /fixed` returns normally. -/
theorem c6_construction_no_panic_witness :
    RequestSpec.new .get ⟨none, ⟨[.literal "fixed"], []⟩⟩ =
      some ⟨.get, ⟨none, ⟨[.literal "fixed"], []⟩⟩⟩ :=
  c6_construction_no_panic .get ⟨none, ⟨[.literal "fixed"], []⟩⟩ (by decide)

/-- C7 counterexample: a declared host prefix does prevent `matches` from
returning normally — the `todo!("Look at host prefix")` panics — even though
the path, query and method steps would give the verdict `Yes`. -/
theorem c7_host_prefix_counterexample :
    RequestSpec.matches ⟨.get, ⟨some [.label], ⟨[], []⟩⟩⟩ ⟨.get, "/", none⟩ =
      none ∧
    pathQueryMethodVerdict .get ⟨[], []⟩ ⟨.get, "/", none⟩ = .yes := by
  decide

/-- C7 (amended: a declared host prefix makes `matches` panic before
evaluating anything, so host-based matching is unimplemented in the strong
sense; only for specs with no declared host prefix does `matches` return
normally, and there its verdict is exactly the path/query/method step
verdict). -/
theorem c7_host_matching_unimplemented :
    (∀ (m : Method) (hp : List HostPrefixSegment) (pq : PathAndQuerySpec)
        (req : RequestM),
        RequestSpec.matches ⟨m, ⟨some hp, pq⟩⟩ req = none) ∧
    (∀ (m : Method) (pq : PathAndQuerySpec) (req : RequestM),
        RequestSpec.matches ⟨m, ⟨none, pq⟩⟩ req =
          some (pathQueryMethodVerdict m pq req)) := by
  refine ⟨fun m hp pq req => rfl, fun m pq req => ?_⟩
  rw [matches_characterization, pathQueryMethodVerdict_characterization]

/-- C8: each of the seven invalid-pattern classes parses to exactly the
matching typed error (the pattern containing a dot is the source's own test
vector `/pa.th..to`). -/
theorem c8_invalid_pattern_errors :
    PathAndQuerySpec.parse "path" = .error .doesNotStartWithForwardSlash ∧
    PathAndQuerySpec.parse "//" = .error .containsEmptyPathSegment ∧
    PathAndQuerySpec.parse "/my/path?" = .error .endsWithQuestionMark ∧
    PathAndQuerySpec.parse "/path#fragment" = .error .containsFragment ∧
    PathAndQuerySpec.parse "/pa.th..to" = .error .containsDotSegment ∧
    PathAndQuerySpec.parse "/\x7blabel" = .error (.unclosedLabel "\x7blabel") ∧
    PathAndQuerySpec.parse "/label\x7d" = .error (.unopenedLabel "label\x7d") :=
  ⟨rfl, rfl, rfl, rfl, rfl, rfl, rfl⟩

/-- C9: the operation handler adapter always terminates in a response and
never errors (`Error = Infallible`): an extraction failure short-circuits to
the rejection's response, and otherwise the user function's output is
converted to the response. -/
theorem c9_adapter_always_responds
    {Input Rejection Output : Type}
    (fromRequest : RequestM → Except Rejection Input)
    (opFunction : Input → Output)
    (outToResp : Output → ResponseM)
    (rejToResp : Rejection → ResponseM)
    (req : RequestM) :
    (∃ resp, operationHandlerCall fromRequest opFunction outToResp rejToResp req =
      .ok resp) ∧
    (∀ rej, fromRequest req = .error rej →
      operationHandlerCall fromRequest opFunction outToResp rejToResp req =
        .ok (rejToResp rej)) ∧
    (∀ input, fromRequest req = .ok input →
      operationHandlerCall fromRequest opFunction outToResp rejToResp req =
        .ok (outToResp (opFunction input))) := by
  refine ⟨⟨handlerCall fromRequest opFunction outToResp rejToResp req, rfl⟩, ?_, ?_⟩
  · intro rej h
    simp [operationHandlerCall, handlerCall, h]
  · intro input h
    simp [operationHandlerCall, handlerCall, h]

/-- C9 witness: the adapter fixtures produce the converted output for a GET
request and the rejection response for a POST request. -/
theorem c9_adapter_always_responds_witness :
    operationHandlerCall extractFixture opFixture outRespFixture rejRespFixture
      ⟨.get, "/", none⟩ = .ok (outRespFixture (opFixture 1)) ∧
    operationHandlerCall extractFixture opFixture outRespFixture rejRespFixture
      ⟨.post, "/", none⟩ = .ok (rejRespFixture ()) :=
  ⟨(c9_adapter_always_responds extractFixture opFixture outRespFixture
      rejRespFixture ⟨.get, "/", none⟩).2.2 1 rfl,
   (c9_adapter_always_responds extractFixture opFixture outRespFixture
      rejRespFixture ⟨.post, "/", none⟩).2.1 () rfl⟩

/-- C10 counterexample: the claim quantifies over every `RequestSpec` with an
empty `PathSpec` and no query constraints, but declaring a host prefix makes
`matches` panic (`todo!`) where the claim promises `MethodNotAllowed`. -/
theorem c10_host_prefix_panic_counterexample :
    RequestSpec.matches ⟨.get, ⟨some [.literal "x"], ⟨[], []⟩⟩⟩
      ⟨.post, "/whatever", none⟩ = none := by
  decide

/-- C10 (amended: restricted to specs that declare no host prefix): the root
pattern `/` parses to the empty `PathSpec`, whose compiled matcher (the bare
`$` pattern) accepts every path, so a spec with no query constraints answers
`Yes` to every request with the declared method and `MethodNotAllowed` to
every other request, regardless of path. -/
theorem c10_empty_path_spec_matches_all :
    PathAndQuerySpec.parse "/" = .ok ⟨[], []⟩ ∧
    (∀ path : String, pathSpecIsMatch [] path = true) ∧
    (∀ (m reqMethod : Method) (path : String) (q : Option String),
        RequestSpec.matches ⟨m, ⟨none, ⟨[], []⟩⟩⟩ ⟨reqMethod, path, q⟩ =
          some (if m = reqMethod then .yes else .methodNotAllowed)) := by
  refine ⟨rfl, pathSpecIsMatch_nil, fun m rm path q => ?_⟩
  rw [matches_characterization]
  simp [pathSpecIsMatch_nil, queryConstraintsHold]

end Smithy
